import Mathlib

/-!
Shallow embedding of the Snap-Opinion backend (Express routes over Mongo
models): user accounts with follower/following edges, posts with likes,
nested comments/replies, views, and a paginated feed.

Strings from the JavaScript side are modelled as `List Char`; ObjectIds as
`Nat`; JavaScript numbers used for durations as `ℚ`.  The persistent stores
are lists of records; each route handler becomes a function from the store
(plus request data) to the updated store and an HTTP-level result.
-/

/-- HTTP-level error responses the routes produce.  `validation` is the 400
response express-validator sends (an `errors` array); `badRequest` and
`notFound` carry the literal message of the `{ error: msg }` payload. -/
inductive ApiError where
  | validation
  | badRequest (msg : List Char)
  | notFound (msg : List Char)
  | server (msg : List Char)
deriving DecidableEq, Repr

/-- The HTTP status code of each error response. -/
def ApiError.statusCode : ApiError → Nat
  | .validation => 400
  | .badRequest _ => 400
  | .notFound _ => 404
  | .server _ => 500

/-- A signed JWT is modelled by the identifier it certifies. -/
structure Token where
  userId : Nat
deriving DecidableEq, Repr

/-- A bcrypt hash is modelled as an ideal hash: it determines exactly the
password it was built from. -/
structure PasswordHash where
  pw : List Char
deriving DecidableEq, Repr

def bcryptHash (password : List Char) : PasswordHash := ⟨password⟩

def bcryptCompare (password : List Char) (h : PasswordHash) : Bool :=
  password == h.pw

structure User where
  id : Nat
  username : List Char
  email : List Char
  passwordHash : PasswordHash
  displayName : Option (List Char)
  followers : List Nat
  following : List Nat
deriving DecidableEq, Repr

structure Reply where
  author : Nat
  text : List Char
deriving DecidableEq, Repr

structure Comment where
  id : Nat
  author : Nat
  text : List Char
  replies : List Reply
deriving DecidableEq, Repr

structure Post where
  id : Nat
  author : Nat
  videoUrl : List Char
  caption : List Char
  hashtags : List (List Char)
  durationSec : ℚ
  likes : List Nat
  comments : List Comment
  views : Nat
  isPromoted : Bool
  createdAt : Nat
deriving DecidableEq, Repr

/-! ### JavaScript string primitives over `List Char`

`String.prototype.toLowerCase` (on the basic-latin range), `trim`, and the
hashtag split `hashtags.split(/[, ]+/)` used by the create-post route. -/

def jsToLower (s : List Char) : List Char := s.map Char.toLower

def ltrim (s : List Char) : List Char := s.dropWhile Char.isWhitespace

def rtrim (s : List Char) : List Char := (ltrim s.reverse).reverse

def jsTrim (s : List Char) : List Char := rtrim (ltrim s)

def tagDelim (c : Char) : Bool := c == ',' || c == ' '

/-- Worker for `splitTags`: `acc` is the reversed current fragment, `inRun`
records whether the previous character belonged to a delimiter run. -/
def splitGo : List Char → List Char → Bool → List (List Char)
  | [], acc, _ => [acc.reverse]
  | c :: cs, acc, inRun =>
    if tagDelim c then
      if inRun then splitGo cs [] true
      else acc.reverse :: splitGo cs [] true
    else splitGo cs (c :: acc) false

/-- `s.split(/[, ]+/)`: cut at maximal runs of commas/spaces, keeping the
(possibly empty) fragments before the first run and after the last. -/
def splitTags (s : List Char) : List (List Char) := splitGo s [] false

/-- Mongoose string-path options `lowercase: true, trim: true` applied on
write (`hashtags` in `PostSchema`, `email` in `UserSchema`). -/
def schemaNormalize (s : List Char) : List Char := jsTrim (jsToLower s)

example : splitTags " a,b,,c ".toList = ["".toList, "a".toList, "b".toList, "c".toList, "".toList] := by decide
example : jsTrim "  ab c ".toList = "ab c".toList := by decide
example : jsToLower "AbC".toList = "abc".toList := by decide

/-! ### Store lookups and single-document updates

`Model.findById` / `findOne` become first-match searches; a Mongoose
`save()` writes the changed paths back to the document with that id. -/

def findUser (users : List User) (uid : Nat) : Option User :=
  users.find? (fun u => u.id == uid)

def updateUser (users : List User) (uid : Nat) (f : User → User) : List User :=
  users.map (fun u => if u.id == uid then f u else u)

def findPost (posts : List Post) (pid : Nat) : Option Post :=
  posts.find? (fun p => p.id == pid)

def updatePost (posts : List Post) (pid : Nat) (f : Post → Post) : List Post :=
  posts.map (fun p => if p.id == pid then f p else p)

def notFoundMsg : List Char := "Not found".toList
def userNotFoundMsg : List Char := "User not found".toList
def commentNotFoundMsg : List Char := "Comment not found".toList
def conflictMsg : List Char := "Username or email already in use".toList
def invalidCredMsg : List Char := "Invalid credentials".toList

/-! ### Auth routes (`routes/auth.js`) -/

/-- The identity payload both auth routes answer with. -/
structure AuthResponse where
  token : Token
  userId : Nat
  username : List Char
  email : List Char
  displayName : Option (List Char)
deriving DecidableEq, Repr

/-- `POST /register`.  `emailValid` is the verdict of the external
`body('email').isEmail()` validator; the two length validators are modelled
directly.  The `findOne({$or: [{username}, {email}]})` filter is cast
through the schema, so the probed email is lowercased/trimmed exactly like
the stored one. -/
def register (users : List User) (nextId : Nat) (emailValid : Bool)
    (username email password : List Char) (displayName : Option (List Char)) :
    List User × Except ApiError (Token × AuthResponse) :=
  if ¬ (3 ≤ username.length ∧ emailValid ∧ 6 ≤ password.length) then
    (users, .error .validation)
  else
    let qUsername := jsTrim username
    let qEmail := schemaNormalize email
    if users.any (fun u => u.username == qUsername || u.email == qEmail) then
      (users, .error (.badRequest conflictMsg))
    else
      let user : User :=
        { id := nextId, username := qUsername, email := qEmail,
          passwordHash := bcryptHash password, displayName := displayName,
          followers := [], following := [] }
      (users ++ [user],
       .ok (⟨nextId⟩,
            { token := ⟨nextId⟩, userId := nextId, username := qUsername,
              email := qEmail, displayName := displayName }))

/-- `POST /login`.  Both failure branches answer 400 with the same
`Invalid credentials` payload.  The store is never written. -/
def login (users : List User) (emailValid hasPassword : Bool)
    (email password : List Char) : Except ApiError AuthResponse :=
  if ¬ (emailValid ∧ hasPassword) then .error .validation
  else
    match users.find? (fun u => u.email == schemaNormalize email) with
    | none => .error (.badRequest invalidCredMsg)
    | some u =>
      if bcryptCompare password u.passwordHash then
        .ok { token := ⟨u.id⟩, userId := u.id, username := u.username,
              email := u.email, displayName := u.displayName }
      else .error (.badRequest invalidCredMsg)

/-! ### Post routes (`routes/posts.js`) -/

/-- Multipart `hashtags` field: a single string, or an array when the field
is repeated in the form. -/
inductive HashtagsInput where
  | str (s : List Char)
  | arr (ts : List (List Char))
deriving DecidableEq, Repr

/-- The `hashtags` parsing of the create-post route: a string is split on
comma/space runs, each piece trimmed, empties dropped; an array is taken
as-is. -/
def parseTags : HashtagsInput → List (List Char)
  | .str s => ((splitTags s).map jsTrim).filter (fun t => ¬ t.isEmpty)
  | .arr ts => ts

/-- `POST /` (create post).  `body('durationSec').isFloat({gt: 0, lt: 300})`
runs first; then the file check; then the post is stored, its `hashtags`
passing through the schema `lowercase`/`trim` setters. -/
def createPost (posts : List Post) (nextId author : Nat) (hasFile : Bool)
    (videoUrl caption : List Char) (hashtags : HashtagsInput)
    (durationSec : ℚ) (now : Nat) : List Post × Except ApiError Post :=
  if ¬ (0 < durationSec ∧ durationSec < 300) then (posts, .error .validation)
  else if ¬ hasFile then (posts, .error (.badRequest "Video file required".toList))
  else
    let post : Post :=
      { id := nextId, author := author, videoUrl := videoUrl, caption := caption,
        hashtags := (parseTags hashtags).map schemaNormalize,
        durationSec := durationSec, likes := [], comments := [],
        views := 0, isPromoted := false, createdAt := now }
    (posts ++ [post], .ok post)

/-- Insert a post into a list kept in descending `createdAt` order. -/
def insertDesc (p : Post) : List Post → List Post
  | [] => [p]
  | q :: qs => if q.createdAt ≤ p.createdAt then p :: q :: qs else q :: insertDesc p qs

/-- The feed sort `.sort({createdAt: -1})`: newest first. -/
def feedSort : List Post → List Post
  | [] => []
  | p :: ps => insertDesc p (feedSort ps)

/-- The mongo filter object of the feed route: restrict to posts whose
hashtag list contains the lowercased query hashtag when one is given. -/
def feedFilter (posts : List Post) (hashtag : Option (List Char)) : List Post :=
  match hashtag with
  | none => posts
  | some h => posts.filter (fun post => post.hashtags.contains (jsToLower h))

/-- `GET /` (feed): clamp `page` below by 0 and `limit` above by 50, filter
by a lowercased hashtag when given, sort newest first, then
`skip(page * limit).limit(limit)`. -/
def listFeed (posts : List Post) (page limit : Nat)
    (hashtag : Option (List Char)) : List Post :=
  let p := max 0 page
  let l := min 50 limit
  ((feedSort (feedFilter posts hashtag)).drop (p * l)).take l

/-- `GET /:id`: `findByIdAndUpdate(id, {$inc: {views: 1}}, {new: true})`,
404 when absent. -/
def getPost (posts : List Post) (pid : Nat) :
    List Post × Except ApiError Post :=
  match findPost posts pid with
  | none => (posts, .error (.notFound notFoundMsg))
  | some p =>
    (updatePost posts pid (fun q => { q with views := q.views + 1 }),
     .ok { p with views := p.views + 1 })

/-- The like/unlike response payload. -/
structure LikeResult where
  likesCount : Nat
  liked : Bool
deriving DecidableEq, Repr

/-- `POST /:id/like`: remove the caller from `likes` when present, append
otherwise, then save. -/
def toggleLike (posts : List Post) (pid uid : Nat) :
    List Post × Except ApiError LikeResult :=
  match findPost posts pid with
  | none => (posts, .error (.notFound notFoundMsg))
  | some post =>
    let liked := post.likes.contains uid
    let newLikes :=
      if liked then post.likes.filter (fun x => !(x == uid))
      else post.likes ++ [uid]
    (updatePost posts pid (fun p => { p with likes := newLikes }),
     .ok { likesCount := newLikes.length, liked := !liked })

/-- `POST /:id/comment`: validate the text length, push a fresh comment
(Mongoose assigns it the fresh subdocument id `nextCid`), save, and answer
with the pushed comment. -/
def addComment (posts : List Post) (pid nextCid author : Nat)
    (text : List Char) : List Post × Except ApiError Comment :=
  if ¬ (1 ≤ text.length ∧ text.length ≤ 500) then (posts, .error .validation)
  else
    match findPost posts pid with
    | none => (posts, .error (.notFound notFoundMsg))
    | some _ =>
      let comment : Comment := { id := nextCid, author := author, text := text, replies := [] }
      (updatePost posts pid (fun p => { p with comments := p.comments ++ [comment] }),
       .ok comment)

def updateComment (comments : List Comment) (cid : Nat) (f : Comment → Comment) :
    List Comment :=
  comments.map (fun c => if c.id == cid then f c else c)

/-- `POST /:id/comment/:commentId/reply`: locate the comment with
`post.comments.id(commentId)`, push a reply onto it, save. -/
def addReply (posts : List Post) (pid cid author : Nat) (text : List Char) :
    List Post × Except ApiError Reply :=
  if ¬ (1 ≤ text.length ∧ text.length ≤ 500) then (posts, .error .validation)
  else
    match findPost posts pid with
    | none => (posts, .error (.notFound notFoundMsg))
    | some post =>
      match post.comments.find? (fun c => c.id == cid) with
      | none => (posts, .error (.notFound commentNotFoundMsg))
      | some _ =>
        let reply : Reply := { author := author, text := text }
        (updatePost posts pid (fun p =>
           { p with comments := (updateComment p.comments cid
               (fun c => { c with replies := c.replies ++ [reply] })) }),
         .ok reply)

/-- The follow/unfollow response payload. -/
structure FollowResult where
  followingCount : Nat
  followersCount : Nat
  following : Bool
deriving DecidableEq, Repr

/-- `POST /user/:userId/follow`: fetch the target (404 when absent) and the
caller, test `me.following` for the target, then either drop the edge from
both sides or push it to both sides; `me.save()` then `toFollow.save()`
write the two changed paths back.  A missing caller record makes
`me.following` throw, which the catch-all turns into a 500 with no write. -/
def toggleFollow (users : List User) (selfId targetId : Nat) :
    List User × Except ApiError FollowResult :=
  match findUser users targetId with
  | none => (users, .error (.notFound userNotFoundMsg))
  | some target =>
    match findUser users selfId with
    | none => (users, .error (.server "Failed to follow/unfollow".toList))
    | some me =>
      let already := me.following.contains targetId
      let newFollowing :=
        if already then me.following.filter (fun x => !(x == targetId))
        else me.following ++ [targetId]
      let newFollowers :=
        if already then target.followers.filter (fun x => !(x == selfId))
        else target.followers ++ [selfId]
      let users1 := updateUser users selfId (fun u => { u with following := newFollowing })
      let users2 := updateUser users1 targetId (fun u => { u with followers := newFollowers })
      (users2,
       .ok { followingCount := newFollowing.length,
             followersCount := newFollowers.length, following := !already })

/-- A sequence of follow/unfollow requests applied to the account store. -/
def applyFollowOps (users : List User) (ops : List (Nat × Nat)) : List User :=
  ops.foldl (fun st op => (toggleFollow st op.1 op.2).1) users

/-! ### Store lemmas -/

theorem findPost_some {posts : List Post} {pid : Nat} {p : Post}
    (h : findPost posts pid = some p) : p ∈ posts ∧ p.id = pid := by
  refine ⟨List.mem_of_find?_eq_some h, ?_⟩
  have := List.find?_some h
  simpa using this

theorem findPost_map (posts : List Post) (g : Post → Post)
    (hg : ∀ q, (g q).id = q.id) (x : Nat) :
    findPost (posts.map g) x = (findPost posts x).map g := by
  unfold findPost
  rw [List.find?_map]
  have hpred : ((fun p : Post => p.id == x) ∘ g) = (fun p : Post => p.id == x) := by
    funext q
    simp [Function.comp, hg]
  rw [hpred]

theorem findPost_updatePost (posts : List Post) (pid x : Nat) (f : Post → Post)
    (hf : ∀ q, (f q).id = q.id) :
    findPost (updatePost posts pid f) x
      = (findPost posts x).map (fun q => if q.id == pid then f q else q) := by
  unfold updatePost
  refine findPost_map posts _ ?_ x
  intro q
  by_cases h : q.id = pid <;> simp [h, hf]

theorem mem_updatePost_of_ne {posts : List Post} {pid : Nat} {f : Post → Post}
    {q : Post} (hq : q ∈ posts) (hne : q.id ≠ pid) : q ∈ updatePost posts pid f := by
  unfold updatePost
  have hkeep : (if q.id == pid then f q else q) = q := by simp [hne]
  exact List.mem_map.mpr ⟨q, hq, hkeep⟩

theorem length_updatePost (posts : List Post) (pid : Nat) (f : Post → Post) :
    (updatePost posts pid f).length = posts.length := by
  simp [updatePost]

theorem findUser_some {users : List User} {uid : Nat} {u : User}
    (h : findUser users uid = some u) : u ∈ users ∧ u.id = uid := by
  refine ⟨List.mem_of_find?_eq_some h, ?_⟩
  have := List.find?_some h
  simpa using this

theorem findUser_map (users : List User) (g : User → User)
    (hg : ∀ w, (g w).id = w.id) (x : Nat) :
    findUser (users.map g) x = (findUser users x).map g := by
  unfold findUser
  rw [List.find?_map]
  have hpred : ((fun u : User => u.id == x) ∘ g) = (fun u : User => u.id == x) := by
    funext w
    simp [Function.comp, hg]
  rw [hpred]

/-! ### C4: fetching a post -/

/-- C4: `getPost` answers 404 and changes nothing when the id is unknown;
otherwise it bumps exactly the view counter of that post, leaving all its
other fields and all other posts untouched. -/
theorem getPost_spec (posts : List Post) (pid : Nat) :
    (findPost posts pid = none →
        getPost posts pid = (posts, Except.error (ApiError.notFound notFoundMsg))) ∧
    (∀ p, findPost posts pid = some p →
        (getPost posts pid).2 = Except.ok { p with views := p.views + 1 } ∧
        (∃ p', findPost (getPost posts pid).1 pid = some p' ∧
            p'.views = p.views + 1 ∧ p'.author = p.author ∧
            p'.caption = p.caption ∧ p'.hashtags = p.hashtags ∧
            p'.likes = p.likes ∧ p'.comments = p.comments ∧
            p'.durationSec = p.durationSec ∧ p'.isPromoted = p.isPromoted) ∧
        ((getPost posts pid).1).length = posts.length ∧
        (∀ q ∈ posts, q.id ≠ pid → q ∈ (getPost posts pid).1)) := by
  constructor
  · intro hnone
    simp [getPost, hnone]
  · intro p hfind
    have hview : ∀ q : Post, ({ q with views := q.views + 1 } : Post).id = q.id := by
      intro q; rfl
    refine ⟨by simp [getPost, hfind], ?_, ?_, ?_⟩
    · refine ⟨{ p with views := p.views + 1 }, ?_, by simp, by simp, by simp, by simp,
        by simp, by simp, by simp, by simp⟩
      have hpid : p.id = pid := (findPost_some hfind).2
      simp only [getPost, hfind]
      rw [findPost_updatePost posts pid pid _ hview, hfind]
      simp [hpid]
    · simp [getPost, hfind, length_updatePost]
    · intro q hq hne
      simp only [getPost, hfind]
      exact mem_updatePost_of_ne hq hne

/-- A concrete post and store exercising `getPost_spec`. -/
def c4Post : Post :=
  { id := 1, author := 0, videoUrl := [], caption := [], hashtags := [],
    durationSec := 45, likes := [7], comments := [], views := 3,
    isPromoted := false, createdAt := 0 }

def c4Posts : List Post :=
  [c4Post,
   { id := 2, author := 0, videoUrl := [], caption := [], hashtags := [],
     durationSec := 50, likes := [], comments := [], views := 0,
     isPromoted := true, createdAt := 5 }]

/-- Witness for `getPost_spec`. -/
theorem getPost_spec_witness :
    (getPost c4Posts 1).2 = Except.ok { c4Post with views := c4Post.views + 1 } ∧
    ((getPost c4Posts 1).1).length = c4Posts.length :=
  ⟨((getPost_spec c4Posts 1).2 c4Post (by decide)).1,
   ((getPost_spec c4Posts 1).2 c4Post (by decide)).2.2.1⟩

/-! ### C1: toggling a like twice -/

/-- Unfolding of `toggleLike` at a post found in the store. -/
theorem toggleLike_found (posts : List Post) (pid uid : Nat) (p : Post)
    (hfind : findPost posts pid = some p) :
    toggleLike posts pid uid =
      (updatePost posts pid (fun q => { q with likes :=
          (if p.likes.contains uid then p.likes.filter (fun x => !(x == uid))
           else p.likes ++ [uid]) }),
       Except.ok
         { likesCount := (if p.likes.contains uid
              then p.likes.filter (fun x => !(x == uid))
              else p.likes ++ [uid]).length,
           liked := !(p.likes.contains uid) }) := by
  unfold toggleLike
  rw [hfind]

/-- Dropping all copies of `a` leaves the count of any other value alone. -/
theorem count_filter_ne (l : List Nat) (a b : Nat) (hne : b ≠ a) :
    (l.filter (fun x => !(x == a))).count b = l.count b := by
  induction l with
  | nil => simp
  | cons c t ih =>
    by_cases hc : c = a
    · subst hc
      have hbc : b ≠ c := hne
      simp [List.count_cons, hbc, ih]
    · simp only [List.filter_cons]
      have hkeep : (!(c == a)) = true := by simp [hc]
      rw [hkeep]
      simp only [if_true, List.count_cons, ih]

/-- Removing the single occurrence of `a` and re-appending it permutes the
list back to itself. -/
theorem filter_ne_append_perm (l : List Nat) (a : Nat) (h : l.count a = 1) :
    (l.filter (fun x => !(x == a)) ++ [a]).Perm l := by
  rw [List.perm_iff_count]
  intro b
  by_cases hb : b = a
  · subst hb
    have hzero : (l.filter (fun x => !(x == b))).count b = 0 := by
      rw [List.count_eq_zero]
      simp [List.mem_filter]
    simp [List.count_append, hzero, h]
  · rw [List.count_append, count_filter_ne l a b hb]
    simp [hb]

/-- C1: on an existing post whose like list holds the caller at most once
(the `likes`-is-a-set data-model invariant), two successive `toggleLike`
calls restore the like set exactly: the same multiset of likers, hence the
same like count and the same membership for every user, and no other field
of the post moves. -/
theorem toggleLike_twice_restores (posts : List Post) (pid uid : Nat) (p : Post)
    (hfind : findPost posts pid = some p)
    (hcount : p.likes.count uid ≤ 1) :
    ∃ p', findPost (toggleLike (toggleLike posts pid uid).1 pid uid).1 pid = some p' ∧
      p'.likes.Perm p.likes ∧
      p'.likes.length = p.likes.length ∧
      (∀ w : Nat, w ∈ p'.likes ↔ w ∈ p.likes) ∧
      p' = { p with likes := p'.likes } := by
  have hpid : p.id = pid := (findPost_some hfind).2
  have hlikes : ∀ L : List Nat, ∀ q : Post, ({ q with likes := L } : Post).id = q.id := by
    intro L q; rfl
  by_cases huid : uid ∈ p.likes
  · have hc : p.likes.contains uid = true := by
      simpa [List.contains] using huid
    have hc1 : p.likes.count uid = 1 :=
      Nat.le_antisymm hcount (List.count_pos_iff.mpr huid)
    have hfind1 : findPost (toggleLike posts pid uid).1 pid
        = some { p with likes := p.likes.filter (fun x => !(x == uid)) } := by
      rw [toggleLike_found posts pid uid p hfind]
      simp only [hc, if_true]
      rw [findPost_updatePost posts pid pid _ (fun q => hlikes _ q), hfind]
      simp [hpid]
    have hc2 : (p.likes.filter (fun x => !(x == uid))).contains uid = false := by
      simp [List.contains]
    have hfind2 : findPost (toggleLike (toggleLike posts pid uid).1 pid uid).1 pid
        = some { p with likes := p.likes.filter (fun x => !(x == uid)) ++ [uid] } := by
      rw [toggleLike_found _ pid uid _ hfind1]
      simp only [hc2, if_false]
      rw [findPost_updatePost _ pid pid _ (fun q => hlikes _ q), hfind1]
      simp [hpid]
    have hperm := filter_ne_append_perm p.likes uid hc1
    exact ⟨_, hfind2, hperm, hperm.length_eq, fun w => hperm.mem_iff, rfl⟩
  · have hc : p.likes.contains uid = false := by
      simpa [List.contains] using huid
    have hfind1 : findPost (toggleLike posts pid uid).1 pid
        = some { p with likes := p.likes ++ [uid] } := by
      rw [toggleLike_found posts pid uid p hfind]
      simp only [hc, if_false]
      rw [findPost_updatePost posts pid pid _ (fun q => hlikes _ q), hfind]
      simp [hpid]
    have hc2 : (p.likes ++ [uid]).contains uid = true := by
      simp [List.contains]
    have hfilter : (p.likes ++ [uid]).filter (fun x => !(x == uid)) = p.likes := by
      rw [List.filter_append]
      have h1 : p.likes.filter (fun x => !(x == uid)) = p.likes :=
        List.filter_eq_self.mpr (fun a ha => by
          have hne : a ≠ uid := fun h => huid (h ▸ ha)
          simp [hne])
      have h2 : ([uid] : List Nat).filter (fun x => !(x == uid)) = [] := by simp
      rw [h1, h2, List.append_nil]
    have hfind2 : findPost (toggleLike (toggleLike posts pid uid).1 pid uid).1 pid
        = some { p with likes := (p.likes ++ [uid]).filter (fun x => !(x == uid)) } := by
      rw [toggleLike_found _ pid uid _ hfind1]
      simp only [hc2, if_true]
      rw [findPost_updatePost _ pid pid _ (fun q => hlikes _ q), hfind1]
      simp [hpid]
    rw [hfilter] at hfind2
    exact ⟨_, hfind2, List.Perm.refl _, rfl, fun w => Iff.rfl, rfl⟩

/-- A concrete post and store exercising `toggleLike_twice_restores`. -/
def c1Post : Post :=
  { id := 1, author := 0, videoUrl := [], caption := [], hashtags := [],
    durationSec := 45, likes := [3, 7], comments := [], views := 0,
    isPromoted := false, createdAt := 0 }

/-- Witness for `toggleLike_twice_restores`: after two toggles by user 7 the
stored like list of post 1 is again a permutation of `[3, 7]`. -/
theorem toggleLike_twice_restores_witness :
    findPost (toggleLike (toggleLike [c1Post] 1 7).1 1 7).1 1
      = some { c1Post with likes := [3, 7] } ∧
    c1Post.likes.count 7 ≤ 1 := by
  have h := toggleLike_twice_restores [c1Post] 1 7 c1Post (by decide) (by decide)
  exact ⟨by decide, by decide⟩

/-! ### C5: duration validation on post creation -/

/-- C5: with the video present and the rest of the request arbitrary, post
creation rejects with a validation error and stores nothing exactly when the
duration is not a positive number strictly below 300 seconds; in range, a
post is created and appended. -/
theorem createPost_duration_validation (posts : List Post) (nextId author : Nat)
    (videoUrl caption : List Char) (hashtags : HashtagsInput) (d : ℚ) (now : Nat) :
    (((createPost posts nextId author true videoUrl caption hashtags d now).1 = posts ∧
      (createPost posts nextId author true videoUrl caption hashtags d now).2 =
        Except.error ApiError.validation) ↔ ¬ (0 < d ∧ d < 300)) ∧
    ((0 < d ∧ d < 300) → ∃ post,
        createPost posts nextId author true videoUrl caption hashtags d now =
          (posts ++ [post], Except.ok post)) := by
  by_cases hd : (0 < d ∧ d < 300)
  · constructor
    · constructor
      · intro hfail
        have hok : (createPost posts nextId author true videoUrl caption hashtags d now).2 =
            Except.ok { id := nextId, author := author, videoUrl := videoUrl,
                        caption := caption,
                        hashtags := (parseTags hashtags).map schemaNormalize,
                        durationSec := d, likes := [], comments := [], views := 0,
                        isPromoted := false, createdAt := now } := by
          simp [createPost, hd]
        rw [hok] at hfail
        exact absurd hfail.2 (by simp)
      · intro hbad
        exact absurd hd hbad
    · intro _
      refine ⟨{ id := nextId, author := author, videoUrl := videoUrl,
                caption := caption,
                hashtags := (parseTags hashtags).map schemaNormalize,
                durationSec := d, likes := [], comments := [], views := 0,
                isPromoted := false, createdAt := now }, ?_⟩
      simp [createPost, hd]
  · constructor
    · constructor
      · intro _
        exact hd
      · intro _
        constructor <;> simp [createPost, hd]
    · intro h
      exact absurd h hd

/-- Witness for `createPost_duration_validation`: duration 400 is rejected
without a write, duration 45 creates a post. -/
theorem createPost_duration_validation_witness :
    (createPost [] 1 0 true [] [] (HashtagsInput.str []) 400 0).2 =
      Except.error ApiError.validation ∧
    (createPost [] 1 0 true [] [] (HashtagsInput.str []) 400 0).1 = [] ∧
    (createPost [] 1 0 true [] [] (HashtagsInput.str []) 45 0).2 ≠
      Except.error ApiError.validation := by
  have h400 := (createPost_duration_validation [] 1 0 [] [] (HashtagsInput.str []) 400 0).1.mpr
    (by decide)
  have h45 := (createPost_duration_validation [] 1 0 [] [] (HashtagsInput.str []) 45 0).2
    (by decide)
  refine ⟨h400.2, h400.1, ?_⟩
  rcases h45 with ⟨post, hpost⟩
  rw [congrArg Prod.snd hpost]
  simp

/-! ### C8: hashtag normalization -/

theorem charOfNat_toNat {n : Nat} (h : n < 55296) : (Char.ofNat n).toNat = n := by
  have hv : n.isValidChar := Or.inl h
  unfold Char.ofNat
  rw [dif_pos hv]
  rfl

/-- `Char.toLower` at the code-point level. -/
theorem toLower_toNat (c : Char) :
    (Char.toLower c).toNat = if 65 ≤ c.toNat ∧ c.toNat ≤ 90 then c.toNat + 32 else c.toNat := by
  unfold Char.toLower
  by_cases h : 65 ≤ c.toNat ∧ c.toNat ≤ 90
  · have h32 : c.toNat + 32 < 55296 := by omega
    have hge : c.toNat ≥ 65 ∧ c.toNat ≤ 90 := h
    rw [if_pos hge, if_pos h]
    exact charOfNat_toNat h32
  · have hge : ¬ (c.toNat ≥ 65 ∧ c.toNat ≤ 90) := h
    rw [if_neg hge, if_neg h]

theorem toLower_eq_self_of_not {c : Char} (h : ¬ (65 ≤ c.toNat ∧ c.toNat ≤ 90)) :
    Char.toLower c = c := by
  have hge : ¬ (c.toNat ≥ 65 ∧ c.toNat ≤ 90) := h
  unfold Char.toLower
  rw [if_neg hge]

/-- A character whose code point is not one of 32, 9, 13, 10 is not
whitespace. -/
theorem not_isWhitespace_of_toNat (c : Char)
    (h : c.toNat ≠ 32 ∧ c.toNat ≠ 9 ∧ c.toNat ≠ 13 ∧ c.toNat ≠ 10) :
    c.isWhitespace = false := by
  have h1 : c ≠ ' ' := fun he => h.1 (by rw [he]; rfl)
  have h2 : c ≠ '\t' := fun he => h.2.1 (by rw [he]; rfl)
  have h3 : c ≠ '\r' := fun he => h.2.2.1 (by rw [he]; rfl)
  have h4 : c ≠ '\n' := fun he => h.2.2.2 (by rw [he]; rfl)
  simp [Char.isWhitespace, h1, h2, h3, h4]

theorem isWhitespace_toLower (c : Char) :
    (Char.toLower c).isWhitespace = c.isWhitespace := by
  by_cases h : 65 ≤ c.toNat ∧ c.toNat ≤ 90
  · have hl : (Char.toLower c).toNat = c.toNat + 32 := by
      rw [toLower_toNat, if_pos h]
    have hres : (Char.toLower c).isWhitespace = false :=
      not_isWhitespace_of_toNat _ (by omega)
    have horig : c.isWhitespace = false :=
      not_isWhitespace_of_toNat _ (by omega)
    rw [hres, horig]
  · rw [toLower_eq_self_of_not h]

theorem toLower_toLower (c : Char) :
    Char.toLower (Char.toLower c) = Char.toLower c := by
  by_cases h : 65 ≤ c.toNat ∧ c.toNat ≤ 90
  · have hl : (Char.toLower c).toNat = c.toNat + 32 := by
      rw [toLower_toNat, if_pos h]
    exact toLower_eq_self_of_not (by omega)
  · rw [toLower_eq_self_of_not h, toLower_eq_self_of_not h]

theorem jsToLower_jsToLower (s : List Char) :
    jsToLower (jsToLower s) = jsToLower s := by
  unfold jsToLower
  rw [List.map_map]
  exact List.map_congr_left (fun c _ => toLower_toLower c)

theorem ltrim_map_toLower (s : List Char) :
    ltrim (jsToLower s) = jsToLower (ltrim s) := by
  unfold ltrim jsToLower
  rw [List.dropWhile_map]
  have hp : (Char.isWhitespace ∘ Char.toLower) = Char.isWhitespace := by
    funext c
    exact isWhitespace_toLower c
  rw [hp]

theorem rtrim_map_toLower (s : List Char) :
    rtrim (jsToLower s) = jsToLower (rtrim s) := by
  unfold rtrim
  rw [show (jsToLower s).reverse = jsToLower s.reverse by
        unfold jsToLower; exact (List.map_reverse Char.toLower s).symm]
  rw [ltrim_map_toLower]
  unfold jsToLower
  exact (List.map_reverse Char.toLower (ltrim s.reverse)).symm

theorem jsTrim_jsToLower (s : List Char) :
    jsTrim (jsToLower s) = jsToLower (jsTrim s) := by
  unfold jsTrim
  rw [ltrim_map_toLower, rtrim_map_toLower]

theorem rtrim_eq_rdropWhile (s : List Char) :
    rtrim s = List.rdropWhile Char.isWhitespace s := rfl

theorem ltrim_ltrim (s : List Char) : ltrim (ltrim s) = ltrim s :=
  List.dropWhile_idempotent Char.isWhitespace s

theorem rtrim_rtrim (s : List Char) : rtrim (rtrim s) = rtrim s := by
  rw [rtrim_eq_rdropWhile, rtrim_eq_rdropWhile]
  exact List.rdropWhile_idempotent Char.isWhitespace s

/-- Right-trimming cannot introduce leading whitespace. -/
theorem ltrim_rtrim (x : List Char) (hx : ltrim x = x) :
    ltrim (rtrim x) = rtrim x := by
  induction x using List.reverseRecOn with
  | nil => simp [rtrim, ltrim]
  | append_singleton l e ih =>
    rw [rtrim_eq_rdropWhile, List.rdropWhile_concat]
    by_cases he : Char.isWhitespace e
    · rw [if_pos he, ← rtrim_eq_rdropWhile]
      cases l with
      | nil => simp [rtrim, ltrim]
      | cons a t =>
        have hna : ¬ Char.isWhitespace a = true := by
          intro hws
          unfold ltrim at hx
          rw [List.cons_append, List.dropWhile_cons_of_pos hws] at hx
          have hlen := congrArg List.length hx
          have hle : ((t ++ [e]).dropWhile Char.isWhitespace).length ≤ (t ++ [e]).length :=
            (List.dropWhile_sublist Char.isWhitespace).length_le
          simp at hlen hle
          omega
        have hl : ltrim (a :: t) = a :: t := by
          unfold ltrim
          rw [List.dropWhile_cons_of_neg hna]
        exact ih hl
    · rw [if_neg he]
      exact hx

theorem jsTrim_jsTrim (s : List Char) : jsTrim (jsTrim s) = jsTrim s := by
  unfold jsTrim
  rw [ltrim_rtrim (ltrim s) (ltrim_ltrim s), rtrim_rtrim]

/-- C8 (amended): every hashtag a successful `createPost` stores is
lowercase and free of leading/trailing whitespace; when the `hashtags`
field arrived as a single string, every stored hashtag is also non-empty.
(Array input skips the route's emptiness filter, so only the schema
normalization applies to it.) -/
theorem createPost_hashtags_normalized (posts : List Post) (nextId author : Nat)
    (hasFile : Bool) (videoUrl caption : List Char) (hashtags : HashtagsInput)
    (d : ℚ) (now : Nat) (post : Post)
    (hok : (createPost posts nextId author hasFile videoUrl caption hashtags d now).2 =
      Except.ok post) :
    ∀ t ∈ post.hashtags, jsToLower t = t ∧ jsTrim t = t ∧
      (∀ s, hashtags = HashtagsInput.str s → t ≠ []) := by
  have htags : post.hashtags = (parseTags hashtags).map schemaNormalize := by
    by_cases hd : (0 < d ∧ d < 300)
    · by_cases hf : hasFile = true
      · subst hf
        have : (createPost posts nextId author true videoUrl caption hashtags d now).2 =
            Except.ok { id := nextId, author := author, videoUrl := videoUrl,
                        caption := caption,
                        hashtags := (parseTags hashtags).map schemaNormalize,
                        durationSec := d, likes := [], comments := [], views := 0,
                        isPromoted := false, createdAt := now } := by
          simp [createPost, hd]
        rw [this] at hok
        injection hok with hpost
        rw [← hpost]
      · have hf' : hasFile = false := by
          revert hf
          cases hasFile <;> simp
        subst hf'
        have : (createPost posts nextId author false videoUrl caption hashtags d now).2 =
            Except.error (ApiError.badRequest "Video file required".toList) := by
          simp [createPost, hd]
        rw [this] at hok
        exact absurd hok (by simp)
    · have : (createPost posts nextId author hasFile videoUrl caption hashtags d now).2 =
          Except.error ApiError.validation := by
        simp [createPost, hd]
      rw [this] at hok
      exact absurd hok (by simp)
  intro t ht
  rw [htags] at ht
  rcases List.mem_map.mp ht with ⟨x, hx, hnorm⟩
  have hlow : jsToLower t = t := by
    rw [← hnorm]
    unfold schemaNormalize
    rw [← jsTrim_jsToLower, jsToLower_jsToLower]
  have htrim : jsTrim t = t := by
    rw [← hnorm]
    unfold schemaNormalize
    rw [jsTrim_jsTrim]
  refine ⟨hlow, htrim, ?_⟩
  intro s hs
  subst hs
  simp only [parseTags] at hx
  rcases List.mem_filter.mp hx with ⟨hxmem, hxne⟩
  rcases List.mem_map.mp hxmem with ⟨piece, _, hpiece⟩
  have hxtrim : jsTrim x = x := by
    rw [← hpiece, jsTrim_jsTrim]
  have hteq : t = jsToLower x := by
    rw [← hnorm]
    unfold schemaNormalize
    rw [jsTrim_jsToLower, hxtrim]
  have hxlen : x ≠ [] := by
    intro hnil
    rw [hnil] at hxne
    simp at hxne
  intro htnil
  apply hxlen
  have := congrArg List.length hteq
  rw [htnil] at this
  unfold jsToLower at this
  simp at this
  exact List.length_eq_zero.mp this.symm

/-- A concrete store produced by the string-input success case of
`createPost_hashtags_normalized`. -/
def c8Post : Post :=
  { id := 1, author := 0, videoUrl := [], caption := [],
    hashtags := ["fun".toList, "tags".toList], durationSec := 45, likes := [],
    comments := [], views := 0, isPromoted := false, createdAt := 0 }

/-- Witness for `createPost_hashtags_normalized`. -/
theorem createPost_hashtags_normalized_witness :
    jsToLower "fun".toList = "fun".toList ∧ jsTrim "fun".toList = "fun".toList ∧
    "fun".toList ≠ [] := by
  have h := createPost_hashtags_normalized [] 1 0 true [] []
    (HashtagsInput.str " Fun,Tags ".toList) 45 0 c8Post rfl
  have hm := h "fun".toList (by decide)
  exact ⟨hm.1, hm.2.1, hm.2.2 " Fun,Tags ".toList rfl⟩

/-- C8 counterexample: when the multipart `hashtags` field repeats (array
input), a whitespace-only entry is stored as an empty hashtag: the creation
succeeds and the stored hashtag list of the new post is `[""]`. -/
theorem createPost_array_empty_hashtag_counterexample :
    ((createPost [] 1 0 true [] [] (HashtagsInput.arr [" ".toList]) 45 0).2.toOption.map
        (fun p => p.hashtags)) = some [[]] := by
  decide

/-! ### C9: a reply lands inside its comment -/

/-- Unfolding of `addComment` at a found post with valid text. -/
theorem addComment_found (posts : List Post) (pid nextCid author : Nat)
    (text : List Char) (p : Post) (hfind : findPost posts pid = some p)
    (hlen : 1 ≤ text.length ∧ text.length ≤ 500) :
    addComment posts pid nextCid author text =
      (updatePost posts pid (fun q => { q with comments :=
          q.comments ++ [{ id := nextCid, author := author, text := text, replies := [] }] }),
       Except.ok { id := nextCid, author := author, text := text, replies := [] }) := by
  unfold addComment
  rw [if_neg (not_not_intro hlen), hfind]

/-- Unfolding of `addReply` at a found post and found comment with valid
text. -/
theorem addReply_found (posts : List Post) (pid cid author : Nat)
    (text : List Char) (p : Post) (c : Comment)
    (hfind : findPost posts pid = some p)
    (hcfind : p.comments.find? (fun d => d.id == cid) = some c)
    (hlen : 1 ≤ text.length ∧ text.length ≤ 500) :
    addReply posts pid cid author text =
      (updatePost posts pid (fun q => { q with comments :=
          (updateComment q.comments cid (fun d =>
            { d with replies := d.replies ++ [{ author := author, text := text }] })) }),
       Except.ok { author := author, text := text }) := by
  unfold addReply
  rw [if_neg (not_not_intro hlen), hfind]
  dsimp only
  rw [hcfind]

/-- Updating a comment id that only the appended element carries rewrites
just that element. -/
theorem updateComment_append_fresh (l : List Comment) (c0 : Comment)
    (f : Comment → Comment) (hfresh : ∀ c ∈ l, c.id ≠ c0.id) :
    updateComment (l ++ [c0]) c0.id f = l ++ [f c0] := by
  unfold updateComment
  rw [List.map_append]
  have hl : l.map (fun c => if c.id == c0.id then f c else c) = l.map (fun c => c) :=
    List.map_congr_left (fun c hc => by simp [hfresh c hc])
  have hc0 : [c0].map (fun c => if c.id == c0.id then f c else c) = [f c0] := by simp
  rw [hl, hc0]
  simp

/-- C9: on an existing post, `addComment` followed by `addReply` to the
returned comment id leaves the comment sequence length at its
post-`addComment` value, gives the new comment exactly one reply (one more
than its empty reply list), and changes no other comment and no other
post. -/
theorem addComment_addReply_spec (posts : List Post) (pid nextCid u1 u2 : Nat)
    (tc tr : List Char) (p : Post)
    (hfind : findPost posts pid = some p)
    (hc : 1 ≤ tc.length ∧ tc.length ≤ 500)
    (hr : 1 ≤ tr.length ∧ tr.length ≤ 500)
    (hfresh : ∀ c ∈ p.comments, c.id ≠ nextCid) :
    (addComment posts pid nextCid u1 tc).2 =
      Except.ok { id := nextCid, author := u1, text := tc, replies := [] } ∧
    (addReply (addComment posts pid nextCid u1 tc).1 pid nextCid u2 tr).2 =
      Except.ok { author := u2, text := tr } ∧
    (∃ p2, findPost (addReply (addComment posts pid nextCid u1 tc).1 pid nextCid u2 tr).1 pid
        = some p2 ∧
      p2.comments = p.comments ++
        [{ id := nextCid, author := u1, text := tc,
           replies := [{ author := u2, text := tr }] }] ∧
      p2.comments.length = p.comments.length + 1 ∧
      (∃ p1, findPost (addComment posts pid nextCid u1 tc).1 pid = some p1 ∧
          p2.comments.length = p1.comments.length) ∧
      (∀ c ∈ p.comments, c ∈ p2.comments)) ∧
    (∀ q ∈ posts, q.id ≠ pid →
      q ∈ (addReply (addComment posts pid nextCid u1 tc).1 pid nextCid u2 tr).1) := by
  have hpid : p.id = pid := (findPost_some hfind).2
  have hcid : ∀ L : List Comment, ∀ q : Post, ({ q with comments := L } : Post).id = q.id := by
    intro L q; rfl
  have hstep1 := addComment_found posts pid nextCid u1 tc p hfind hc
  have hfind1 : findPost (addComment posts pid nextCid u1 tc).1 pid
      = some { p with comments :=
          p.comments ++ [{ id := nextCid, author := u1, text := tc, replies := [] }] } := by
    rw [hstep1]
    rw [findPost_updatePost posts pid pid _ (fun q => hcid _ q), hfind]
    simp [hpid]
  have hnone : p.comments.find? (fun d => d.id == nextCid) = none := by
    rw [List.find?_eq_none]
    intro c hcmem
    simp [hfresh c hcmem]
  have hcfind : ({ p with comments :=
        p.comments ++ [{ id := nextCid, author := u1, text := tc, replies := [] }] } : Post).comments.find?
        (fun d => d.id == nextCid)
      = some { id := nextCid, author := u1, text := tc, replies := [] } := by
    simp only [List.find?_append, hnone, Option.none_or]
    simp
  have hstep2 := addReply_found (addComment posts pid nextCid u1 tc).1 pid nextCid u2 tr
    _ _ hfind1 hcfind hr
  have hupdc : updateComment
      (p.comments ++ [{ id := nextCid, author := u1, text := tc, replies := [] }]) nextCid
      (fun d => { d with replies := d.replies ++ [{ author := u2, text := tr }] })
      = p.comments ++
        [{ id := nextCid, author := u1, text := tc,
           replies := [{ author := u2, text := tr }] }] := by
    have := updateComment_append_fresh p.comments
      { id := nextCid, author := u1, text := tc, replies := [] }
      (fun d => { d with replies := d.replies ++ [{ author := u2, text := tr }] })
      (fun c hc2 => hfresh c hc2)
    simpa using this
  have hfind2 : findPost (addReply (addComment posts pid nextCid u1 tc).1 pid nextCid u2 tr).1 pid
      = some { p with comments := p.comments ++
          [{ id := nextCid, author := u1, text := tc,
             replies := [{ author := u2, text := tr }] }] } := by
    rw [hstep2]
    rw [findPost_updatePost _ pid pid _ (fun q => hcid _ q), hfind1]
    simp [hpid, hupdc]
  refine ⟨by rw [hstep1], by rw [hstep2], ⟨_, hfind2, rfl, by simp, ⟨_, hfind1, by simp⟩, ?_⟩, ?_⟩
  · intro c hcmem
    exact List.mem_append.mpr (Or.inl hcmem)
  · intro q hq hne
    rw [hstep2, hstep1]
    exact mem_updatePost_of_ne (mem_updatePost_of_ne hq hne) hne

/-- A concrete post with one existing comment for the C9 witness. -/
def c9Post : Post :=
  { id := 1, author := 0, videoUrl := [], caption := [], hashtags := [],
    durationSec := 45, likes := [],
    comments := [{ id := 5, author := 9, text := "old".toList, replies := [] }],
    views := 0, isPromoted := false, createdAt := 0 }

/-- Witness for `addComment_addReply_spec`. -/
theorem addComment_addReply_spec_witness :
    (addComment [c9Post] 1 6 2 "hi".toList).2 =
      Except.ok { id := 6, author := 2, text := "hi".toList, replies := [] } ∧
    findPost (addReply (addComment [c9Post] 1 6 2 "hi".toList).1 1 6 3 "yo".toList).1 1 =
      some { c9Post with comments := c9Post.comments ++
        [{ id := 6, author := 2, text := "hi".toList,
           replies := [{ author := 3, text := "yo".toList }] }] } := by
  have h := addComment_addReply_spec [c9Post] 1 6 2 3 "hi".toList "yo".toList c9Post
    (by decide) (by decide) (by decide) (by decide)
  exact ⟨h.1, by decide⟩

/-! ### C10: login failures are indistinguishable -/

/-- C10: a login that fails because the email matches no user and a login
that fails because the password does not match the stored hash produce the
same error term: status 400 with the literal `Invalid credentials` payload.
Neither failure reveals whether the account exists. -/
theorem login_failure_indistinguishable
    (users1 : List User) (email1 password1 : List Char)
    (users2 : List User) (email2 password2 : List Char) (u : User)
    (h1 : users1.find? (fun w => w.email == schemaNormalize email1) = none)
    (h2 : users2.find? (fun w => w.email == schemaNormalize email2) = some u)
    (h3 : bcryptCompare password2 u.passwordHash = false) :
    login users1 true true email1 password1 =
      Except.error (ApiError.badRequest invalidCredMsg) ∧
    login users2 true true email2 password2 =
      Except.error (ApiError.badRequest invalidCredMsg) ∧
    login users1 true true email1 password1 = login users2 true true email2 password2 ∧
    (ApiError.badRequest invalidCredMsg).statusCode = 400 := by
  have hl1 : login users1 true true email1 password1 =
      Except.error (ApiError.badRequest invalidCredMsg) := by
    unfold login
    rw [if_neg (by simp), h1]
  have hl2 : login users2 true true email2 password2 =
      Except.error (ApiError.badRequest invalidCredMsg) := by
    unfold login
    rw [if_neg (by simp), h2]
    dsimp only
    rw [h3]
    rfl
  exact ⟨hl1, hl2, by rw [hl1, hl2], rfl⟩

/-- A registered user for the C10 witness. -/
def c10User : User :=
  { id := 4, username := "alice".toList, email := "alice@x.com".toList,
    passwordHash := bcryptHash "secret1".toList, displayName := none,
    followers := [], following := [] }

/-- Witness for `login_failure_indistinguishable`: unknown email versus
wrong password for a known email give the same response. -/
theorem login_failure_indistinguishable_witness :
    login [] true true "ghost@x.com".toList "whatever".toList =
      Except.error (ApiError.badRequest invalidCredMsg) ∧
    login [c10User] true true "Alice@X.com".toList "wrongpass".toList =
      Except.error (ApiError.badRequest invalidCredMsg) := by
  have h := login_failure_indistinguishable [] "ghost@x.com".toList "whatever".toList
    [c10User] "Alice@X.com".toList "wrongpass".toList c10User
    (by decide) (by decide) (by decide)
  exact ⟨h.1, h.2.1⟩

/-! ### C6: duplicate registration -/

/-- C6: with a well-formed request, registration answers the `Conflict`
response exactly when some stored user carries the requested username or
the normalized (lowercased, i.e. case-insensitively compared) email; a
conflict writes nothing, otherwise the user is created and an identity
token is returned; in particular a second registration whose email differs
only in letter case hits the conflict. -/
theorem register_conflict_spec (users : List User) (nextId : Nat)
    (username email password : List Char) (displayName : Option (List Char))
    (hu : 3 ≤ username.length) (hp : 6 ≤ password.length) :
    ((register users nextId true username email password displayName).2 =
        Except.error (ApiError.badRequest conflictMsg) ↔
      ∃ u ∈ users, u.username = jsTrim username ∨ u.email = schemaNormalize email) ∧
    ((∃ u ∈ users, u.username = jsTrim username ∨ u.email = schemaNormalize email) →
      (register users nextId true username email password displayName).1 = users) ∧
    ((¬ ∃ u ∈ users, u.username = jsTrim username ∨ u.email = schemaNormalize email) →
      register users nextId true username email password displayName =
        (users ++ [{ id := nextId, username := jsTrim username,
                     email := schemaNormalize email,
                     passwordHash := bcryptHash password, displayName := displayName,
                     followers := [], following := [] }],
         Except.ok (⟨nextId⟩,
           { token := ⟨nextId⟩, userId := nextId, username := jsTrim username,
             email := schemaNormalize email, displayName := displayName }))) ∧
    ((¬ ∃ u ∈ users, u.username = jsTrim username ∨ u.email = schemaNormalize email) →
      ∀ (nextId2 : Nat) (username2 email2 password2 : List Char)
        (displayName2 : Option (List Char)),
        3 ≤ username2.length → 6 ≤ password2.length →
        schemaNormalize email2 = schemaNormalize email →
        (register (register users nextId true username email password displayName).1
            nextId2 true username2 email2 password2 displayName2).2 =
          Except.error (ApiError.badRequest conflictMsg)) := by
  have hval : ¬ ¬ (3 ≤ username.length ∧ True ∧ 6 ≤ password.length) :=
    not_not_intro ⟨hu, trivial, hp⟩
  have hany : (users.any (fun u =>
        u.username == jsTrim username || u.email == schemaNormalize email)) = true ↔
      ∃ u ∈ users, u.username = jsTrim username ∨ u.email = schemaNormalize email := by
    rw [List.any_eq_true]
    constructor
    · rintro ⟨u, hu2, hor⟩
      refine ⟨u, hu2, ?_⟩
      rcases Bool.or_eq_true_iff.mp hor with h | h
      · exact Or.inl (by simpa using h)
      · exact Or.inr (by simpa using h)
    · rintro ⟨u, hu2, hor⟩
      refine ⟨u, hu2, ?_⟩
      rcases hor with h | h
      · exact Bool.or_eq_true_iff.mpr (Or.inl (by simp [h]))
      · exact Bool.or_eq_true_iff.mpr (Or.inr (by simp [h]))
  by_cases hdup : ∃ u ∈ users, u.username = jsTrim username ∨ u.email = schemaNormalize email
  · have hb : (users.any (fun u =>
        u.username == jsTrim username || u.email == schemaNormalize email)) = true :=
      hany.mpr hdup
    have hreg : register users nextId true username email password displayName =
        (users, Except.error (ApiError.badRequest conflictMsg)) := by
      unfold register
      rw [if_neg (by simpa using hval), if_pos hb]
    refine ⟨⟨fun _ => hdup, fun _ => by rw [hreg]⟩, fun _ => by rw [hreg], ?_, ?_⟩
    · intro hnot
      exact absurd hdup hnot
    · intro hnot
      exact absurd hdup hnot
  · have hb : (users.any (fun u =>
        u.username == jsTrim username || u.email == schemaNormalize email)) = false := by
      rw [← Bool.not_eq_true]
      intro hcontra
      exact hdup (hany.mp hcontra)
    have hreg : register users nextId true username email password displayName =
        (users ++ [{ id := nextId, username := jsTrim username,
                     email := schemaNormalize email,
                     passwordHash := bcryptHash password, displayName := displayName,
                     followers := [], following := [] }],
         Except.ok (⟨nextId⟩,
           { token := ⟨nextId⟩, userId := nextId, username := jsTrim username,
             email := schemaNormalize email, displayName := displayName })) := by
      unfold register
      rw [if_neg (by simpa using hval), if_neg (by simp [hb])]
    refine ⟨⟨?_, fun h => absurd h hdup⟩, fun h => absurd h hdup, fun _ => hreg, ?_⟩
    · intro hcontra
      rw [hreg] at hcontra
      exact absurd hcontra (by simp)
    · intro _ nextId2 username2 email2 password2 displayName2 hu2 hp2 hem
      have hb2 : ((users ++
          [({ id := nextId, username := jsTrim username,
              email := schemaNormalize email,
              passwordHash := bcryptHash password, displayName := displayName,
              followers := [], following := [] } : User)]).any
          (fun u => u.username == jsTrim username2 || u.email == schemaNormalize email2)) = true := by
        rw [List.any_eq_true]
        refine ⟨{ id := nextId, username := jsTrim username,
                  email := schemaNormalize email,
                  passwordHash := bcryptHash password, displayName := displayName,
                  followers := [], following := [] }, List.mem_append.mpr (Or.inr (by simp)), ?_⟩
        exact Bool.or_eq_true_iff.mpr (Or.inr (by simp [hem]))
      rw [hreg]
      unfold register
      rw [if_neg (by simp [hu2, hp2]), if_pos hb2]

/-- Witness for `register_conflict_spec`: registering alice succeeds,
re-registering the same email in different letter case is a conflict. -/
theorem register_conflict_spec_witness :
    register [] 4 true "alice".toList "alice@x.com".toList "secret1".toList none =
      ([{ id := 4, username := jsTrim "alice".toList,
          email := schemaNormalize "alice@x.com".toList,
          passwordHash := bcryptHash "secret1".toList, displayName := none,
          followers := [], following := [] }],
       Except.ok (⟨4⟩,
         { token := ⟨4⟩, userId := 4, username := jsTrim "alice".toList,
           email := schemaNormalize "alice@x.com".toList, displayName := none })) ∧
    (register (register [] 4 true "alice".toList "alice@x.com".toList
        "secret1".toList none).1 5 true "alicia".toList "ALICE@X.COM".toList
        "secret2".toList none).2 =
      Except.error (ApiError.badRequest conflictMsg) := by
  have h := register_conflict_spec [] 4 "alice".toList "alice@x.com".toList
    "secret1".toList none (by decide) (by decide)
  exact ⟨h.2.2.1 (by decide),
    h.2.2.2 (by decide) 5 "alicia".toList "ALICE@X.COM".toList "secret2".toList none
      (by decide) (by decide) (by decide)⟩

/-! ### C7: feed ordering and pagination -/

theorem insertDesc_perm (p : Post) (l : List Post) :
    (insertDesc p l).Perm (p :: l) := by
  induction l with
  | nil => exact List.Perm.refl _
  | cons q qs ih =>
    unfold insertDesc
    by_cases h : q.createdAt ≤ p.createdAt
    · rw [if_pos h]
    · rw [if_neg h]
      exact (List.Perm.cons q ih).trans (List.Perm.swap p q qs)

theorem feedSort_perm (l : List Post) : (feedSort l).Perm l := by
  induction l with
  | nil => exact List.Perm.refl _
  | cons p ps ih =>
    exact (insertDesc_perm p (feedSort ps)).trans (List.Perm.cons p ih)

theorem mem_insertDesc {x p : Post} {l : List Post} (hx : x ∈ insertDesc p l) :
    x = p ∨ x ∈ l :=
  List.mem_cons.mp ((insertDesc_perm p l).mem_iff.mp hx)

theorem insertDesc_sorted (p : Post) (l : List Post)
    (hl : l.Pairwise (fun a b => b.createdAt ≤ a.createdAt)) :
    (insertDesc p l).Pairwise (fun a b => b.createdAt ≤ a.createdAt) := by
  induction l with
  | nil => simp [insertDesc]
  | cons q qs ih =>
    rcases List.pairwise_cons.mp hl with ⟨hq, hqs⟩
    unfold insertDesc
    by_cases h : q.createdAt ≤ p.createdAt
    · rw [if_pos h]
      refine List.pairwise_cons.mpr ⟨?_, hl⟩
      intro b hb
      rcases List.mem_cons.mp hb with hb | hb
      · subst hb
        exact h
      · exact Nat.le_trans (hq b hb) h
    · rw [if_neg h]
      refine List.pairwise_cons.mpr ⟨?_, ih hqs⟩
      intro b hb
      rcases mem_insertDesc hb with hb | hb
      · subst hb
        exact Nat.le_of_lt (Nat.lt_of_not_le h)
      · exact hq b hb

theorem feedSort_sorted (l : List Post) :
    (feedSort l).Pairwise (fun a b => b.createdAt ≤ a.createdAt) := by
  induction l with
  | nil => simp [feedSort]
  | cons p ps ih => exact insertDesc_sorted p (feedSort ps) ih

/-- C7: the feed is ordered newest-created-first, its length never exceeds
the limit clamped to 50, the page is a zero-based offset in units of that
clamped limit, and page 0 followed by page 1 forms exactly the first
`2 * limit` entries of the sorted order, so the two pages are disjoint and
contiguous whenever the store has no duplicate posts. -/
theorem listFeed_pagination_spec (posts : List Post) (page limit : Nat)
    (hashtag : Option (List Char)) :
    (listFeed posts page limit hashtag).Pairwise
      (fun a b => b.createdAt ≤ a.createdAt) ∧
    (listFeed posts page limit hashtag).length ≤ 50 ∧
    (listFeed posts page limit hashtag).length ≤ limit ∧
    listFeed posts page limit hashtag =
      ((feedSort (feedFilter posts hashtag)).drop (page * min 50 limit)).take
        (min 50 limit) ∧
    listFeed posts 0 limit hashtag ++ listFeed posts 1 limit hashtag =
      (feedSort (feedFilter posts hashtag)).take (min 50 limit + min 50 limit) ∧
    (posts.Nodup →
      ∀ x ∈ listFeed posts 0 limit hashtag, x ∉ listFeed posts 1 limit hashtag) := by
  have hdef : ∀ pg : Nat, listFeed posts pg limit hashtag =
      ((feedSort (feedFilter posts hashtag)).drop (pg * min 50 limit)).take
        (min 50 limit) := by
    intro pg
    simp [listFeed, Nat.zero_max]
  have hsub : List.Sublist (listFeed posts page limit hashtag)
      (feedSort (feedFilter posts hashtag)) := by
    rw [hdef page]
    exact (List.take_sublist _ _).trans (List.drop_sublist _ _)
  have hsorted := feedSort_sorted (feedFilter posts hashtag)
  have hlen : (listFeed posts page limit hashtag).length ≤ min 50 limit := by
    rw [hdef page]
    exact List.length_take_le _ _
  have hcontig : listFeed posts 0 limit hashtag ++ listFeed posts 1 limit hashtag =
      (feedSort (feedFilter posts hashtag)).take (min 50 limit + min 50 limit) := by
    rw [hdef 0, hdef 1]
    rw [Nat.zero_mul, Nat.one_mul, List.drop_zero]
    have h1 : ((feedSort (feedFilter posts hashtag)).take
        (min 50 limit + min 50 limit)).take (min 50 limit) =
        (feedSort (feedFilter posts hashtag)).take (min 50 limit) := by
      rw [List.take_take]
      congr 1
      omega
    have h2 : ((feedSort (feedFilter posts hashtag)).drop (min 50 limit)).take
        (min 50 limit) =
        ((feedSort (feedFilter posts hashtag)).take
          (min 50 limit + min 50 limit)).drop (min 50 limit) :=
      List.take_drop (min 50 limit) (min 50 limit) _
    rw [h2, ← h1]
    exact List.take_append_drop _ _
  refine ⟨hsorted.sublist hsub, Nat.le_trans hlen (Nat.min_le_left _ _),
    Nat.le_trans hlen (Nat.min_le_right _ _), hdef page, hcontig, ?_⟩
  intro hnd x hx0 hx1
  have hfnd : (feedFilter posts hashtag).Nodup := by
    cases hashtag with
    | none => exact hnd
    | some h => exact (List.filter_sublist posts).nodup hnd
  have hSnd : (feedSort (feedFilter posts hashtag)).Nodup :=
    ((feedSort_perm (feedFilter posts hashtag)).nodup_iff).mpr hfnd
  have hTnd : ((feedSort (feedFilter posts hashtag)).take
      (min 50 limit + min 50 limit)).Nodup :=
    (List.take_sublist _ _).nodup hSnd
  rw [← hcontig] at hTnd
  exact (List.nodup_append.mp hTnd).2.2 hx0 hx1

/-- Four posts with increasing creation times for the C7 witness. -/
def c7a : Post :=
  { id := 1, author := 0, videoUrl := [], caption := [], hashtags := [],
    durationSec := 10, likes := [], comments := [], views := 0,
    isPromoted := false, createdAt := 1 }

def c7b : Post := { c7a with id := 2, createdAt := 2 }

def c7c : Post := { c7a with id := 3, createdAt := 3 }

def c7d : Post := { c7a with id := 4, createdAt := 4 }

def c7Posts : List Post := [c7a, c7b, c7c, c7d]

/-- Witness for `listFeed_pagination_spec`: with limit 2, pages 0 and 1 tile
the first four entries of the descending order, and the newest post of
page 0 does not reappear on page 1. -/
theorem listFeed_pagination_spec_witness :
    (listFeed c7Posts 0 2 none ++ listFeed c7Posts 1 2 none =
      (feedSort (feedFilter c7Posts none)).take (min 50 2 + min 50 2)) ∧
    c7d ∉ listFeed c7Posts 1 2 none := by
  have h := listFeed_pagination_spec c7Posts 0 2 none
  exact ⟨h.2.2.2.2.1, h.2.2.2.2.2 (by decide) c7d (by decide)⟩

/-! ### C2 and C3: the follow relation -/

/-- Unfolding of `toggleFollow` when target and caller are both found. -/
theorem toggleFollow_found (users : List User) (selfId targetId : Nat)
    (target me : User)
    (ht : findUser users targetId = some target)
    (hs : findUser users selfId = some me) :
    toggleFollow users selfId targetId =
      (updateUser (updateUser users selfId (fun u => { u with following :=
          (if me.following.contains targetId
           then me.following.filter (fun x => !(x == targetId))
           else me.following ++ [targetId]) })) targetId (fun u => { u with followers :=
          (if me.following.contains targetId
           then target.followers.filter (fun x => !(x == selfId))
           else target.followers ++ [selfId]) }),
       Except.ok
         { followingCount := (if me.following.contains targetId
              then me.following.filter (fun x => !(x == targetId))
              else me.following ++ [targetId]).length,
           followersCount := (if me.following.contains targetId
              then target.followers.filter (fun x => !(x == selfId))
              else target.followers ++ [selfId]).length,
           following := !(me.following.contains targetId) }) := by
  unfold toggleFollow
  rw [ht, hs]

/-- The two saves of the follow route collapse into one map over the
store. -/
theorem updateUser_updateUser_map (users : List User) (s t : Nat)
    (FL FR : List Nat) :
    updateUser (updateUser users s (fun u => { u with following := FL })) t
        (fun u => { u with followers := FR })
      = users.map (fun u =>
          { u with following := (if u.id == s then FL else u.following),
                   followers := (if u.id == t then FR else u.followers) }) := by
  unfold updateUser
  rw [List.map_map]
  apply List.map_congr_left
  intro u _
  cases hsb : (u.id == s) <;> cases htb : (u.id == t) <;>
    simp [Function.comp, hsb, htb]

/-- The account-store invariant the follow routes maintain: Mongo ids are
unique, edge lists are duplicate-free, edges point at existing users, and
the relation is stored symmetrically (`a` is a follower of `b` iff `b` is
followed by `a`). -/
def FollowInv (users : List User) : Prop :=
  (users.map User.id).Nodup ∧
  (∀ u ∈ users, u.followers.Nodup ∧ u.following.Nodup) ∧
  (∀ u ∈ users, (∀ x ∈ u.followers, ∃ w ∈ users, w.id = x) ∧
                (∀ x ∈ u.following, ∃ w ∈ users, w.id = x)) ∧
  (∀ u ∈ users, ∀ v ∈ users, (u.id ∈ v.followers ↔ v.id ∈ u.following))

/-- One simultaneous rewrite of the two edge lists preserves the store
invariant, given the new lists relate to the old ones the way both branches
of the follow route do. -/
theorem followInv_map (users : List User) (s t : Nat) (me target : User)
    (hme : me ∈ users) (hmeid : me.id = s)
    (htg : target ∈ users) (htgid : target.id = t)
    (hinv : FollowInv users)
    (FL FR : List Nat) (hFLnd : FL.Nodup) (hFRnd : FR.Nodup)
    (hst : s ∈ FR ↔ t ∈ FL)
    (hFR : ∀ x, x ≠ s → (x ∈ FR ↔ x ∈ target.followers))
    (hFL : ∀ y, y ≠ t → (y ∈ FL ↔ y ∈ me.following))
    (hFLc : ∀ x ∈ FL, ∃ w ∈ users, w.id = x)
    (hFRc : ∀ x ∈ FR, ∃ w ∈ users, w.id = x) :
    FollowInv (users.map (fun u =>
      { u with following := (if u.id == s then FL else u.following),
               followers := (if u.id == t then FR else u.followers) })) := by
  rcases hinv with ⟨hnd, hnodup, hclosed, hsym⟩
  refine ⟨?_, ?_, ?_, ?_⟩
  · have hids : (users.map (fun u : User =>
        { u with following := (if u.id == s then FL else u.following),
                 followers := (if u.id == t then FR else u.followers) })).map User.id
        = users.map User.id := by
      rw [List.map_map]
      apply List.map_congr_left
      intro u _
      rfl
    rw [hids]
    exact hnd
  · intro u' hu'
    rcases List.mem_map.mp hu' with ⟨u, hu, rfl⟩
    dsimp only
    constructor
    · by_cases hut : u.id = t
      · rw [if_pos (by simp [hut])]
        exact hFRnd
      · rw [if_neg (by simp [hut])]
        exact (hnodup u hu).1
    · by_cases hus : u.id = s
      · rw [if_pos (by simp [hus])]
        exact hFLnd
      · rw [if_neg (by simp [hus])]
        exact (hnodup u hu).2
  · intro u' hu'
    rcases List.mem_map.mp hu' with ⟨u, hu, rfl⟩
    dsimp only
    have hlift : ∀ x : Nat, (∃ w ∈ users, w.id = x) →
        ∃ w' ∈ users.map (fun u : User =>
          { u with following := (if u.id == s then FL else u.following),
                   followers := (if u.id == t then FR else u.followers) }), w'.id = x := by
      rintro x ⟨w, hw, hwid⟩
      exact ⟨_, List.mem_map_of_mem _ hw, hwid⟩
    constructor
    · intro x hx
      by_cases hut : u.id = t
      · rw [if_pos (by simp [hut])] at hx
        exact hlift x (hFRc x hx)
      · rw [if_neg (by simp [hut])] at hx
        exact hlift x ((hclosed u hu).1 x hx)
    · intro x hx
      by_cases hus : u.id = s
      · rw [if_pos (by simp [hus])] at hx
        exact hlift x (hFLc x hx)
      · rw [if_neg (by simp [hus])] at hx
        exact hlift x ((hclosed u hu).2 x hx)
  · intro u' hu' v' hv'
    rcases List.mem_map.mp hu' with ⟨u, hu, rfl⟩
    rcases List.mem_map.mp hv' with ⟨v, hv, rfl⟩
    show u.id ∈ (if v.id == t then FR else v.followers) ↔
      v.id ∈ (if u.id == s then FL else u.following)
    by_cases hvt : v.id = t <;> by_cases hus : u.id = s
    · rw [if_pos (by simp [hvt]), if_pos (by simp [hus]), hus, hvt]
      exact hst
    · rw [if_pos (by simp [hvt]), if_neg (by simp [hus]), hvt]
      refine (hFR u.id hus).trans ?_
      rw [← htgid]
      exact hsym u hu target htg
    · rw [if_neg (by simp [hvt]), if_pos (by simp [hus]), hus]
      refine Iff.trans ?_ (hFL v.id hvt).symm
      rw [← hmeid]
      exact hsym me hme v hv
    · rw [if_neg (by simp [hvt]), if_neg (by simp [hus])]
      exact hsym u hu v hv

/-- C2 preservation step: any follow/unfollow call keeps the store
invariant, self-directed calls included. -/
theorem toggleFollow_preserves_inv (users : List User) (s t : Nat)
    (hinv : FollowInv users) : FollowInv (toggleFollow users s t).1 := by
  rcases hft : findUser users t with _ | target
  · have h : (toggleFollow users s t).1 = users := by
      unfold toggleFollow
      rw [hft]
    rw [h]
    exact hinv
  rcases hfs : findUser users s with _ | me
  · have h : (toggleFollow users s t).1 = users := by
      unfold toggleFollow
      rw [hft, hfs]
    rw [h]
    exact hinv
  have htgmem := findUser_some hft
  have hmemem := findUser_some hfs
  have hmain : (toggleFollow users s t).1 = users.map (fun u =>
      { u with following := (if u.id == s then
            (if me.following.contains t then me.following.filter (fun x => !(x == t))
             else me.following ++ [t]) else u.following),
               followers := (if u.id == t then
            (if me.following.contains t then target.followers.filter (fun x => !(x == s))
             else target.followers ++ [s]) else u.followers) }) := by
    rw [toggleFollow_found users s t target me hft hfs]
    dsimp only
    rw [updateUser_updateUser_map]
  rw [hmain]
  have hsym := hinv.2.2.2
  have hmef : me.following.Nodup := (hinv.2.1 me hmemem.1).2
  have htgf : target.followers.Nodup := (hinv.2.1 target htgmem.1).1
  by_cases hal : t ∈ me.following
  · have hcb : me.following.contains t = true := by simp [List.contains, hal]
    refine followInv_map users s t me target hmemem.1 hmemem.2 htgmem.1 htgmem.2 hinv _ _
      ?_ ?_ ?_ ?_ ?_ ?_ ?_
    · rw [hcb]
      simp only [if_true]
      exact hmef.filter _
    · rw [hcb]
      simp only [if_true]
      exact htgf.filter _
    · rw [hcb]
      simp [List.mem_filter]
    · intro x hx
      rw [hcb]
      simp [List.mem_filter, hx]
    · intro y hy
      rw [hcb]
      simp [List.mem_filter, hy]
    · intro x hx
      rw [hcb] at hx
      simp only [if_true] at hx
      exact (hinv.2.2.1 me hmemem.1).2 x (List.mem_filter.mp hx).1
    · intro x hx
      rw [hcb] at hx
      simp only [if_true] at hx
      exact (hinv.2.2.1 target htgmem.1).1 x (List.mem_filter.mp hx).1
  · have hcb : me.following.contains t = false := by simp [List.contains, hal]
    have hnotfollower : s ∉ target.followers := by
      intro hcontra
      apply hal
      have h := hsym me hmemem.1 target htgmem.1
      rw [hmemem.2, htgmem.2] at h
      exact h.mp hcontra
    refine followInv_map users s t me target hmemem.1 hmemem.2 htgmem.1 htgmem.2 hinv _ _
      ?_ ?_ ?_ ?_ ?_ ?_ ?_
    · rw [hcb]
      simp only [Bool.false_eq_true, if_false]
      rw [List.nodup_append]
      exact ⟨hmef, List.nodup_singleton t, by
        intro a ha hb
        rw [List.mem_singleton] at hb
        exact hal (hb ▸ ha)⟩
    · rw [hcb]
      simp only [Bool.false_eq_true, if_false]
      rw [List.nodup_append]
      exact ⟨htgf, List.nodup_singleton s, by
        intro a ha hb
        rw [List.mem_singleton] at hb
        exact hnotfollower (hb ▸ ha)⟩
    · rw [hcb]
      simp
    · intro x hx
      rw [hcb]
      simp [hx]
    · intro y hy
      rw [hcb]
      simp [hy]
    · intro x hx
      rw [hcb] at hx
      simp only [Bool.false_eq_true, if_false] at hx
      rcases List.mem_append.mp hx with h | h
      · exact (hinv.2.2.1 me hmemem.1).2 x h
      · rw [List.mem_singleton] at h
        exact ⟨target, htgmem.1, h ▸ htgmem.2⟩
    · intro x hx
      rw [hcb] at hx
      simp only [Bool.false_eq_true, if_false] at hx
      rcases List.mem_append.mp hx with h | h
      · exact (hinv.2.2.1 target htgmem.1).1 x h
      · rw [List.mem_singleton] at h
        exact ⟨me, hmemem.1, h ▸ hmemem.2⟩

theorem applyFollowOps_inv (ops : List (Nat × Nat)) (users : List User)
    (hinv : FollowInv users) : FollowInv (applyFollowOps users ops) := by
  induction ops generalizing users with
  | nil => exact hinv
  | cons op rest ih =>
    exact ih _ (toggleFollow_preserves_inv users op.1 op.2 hinv)

theorem followInv_init (users : List User)
    (hnd : (users.map User.id).Nodup)
    (hempty : ∀ u ∈ users, u.followers = [] ∧ u.following = []) :
    FollowInv users := by
  refine ⟨hnd, ?_, ?_, ?_⟩
  · intro u hu
    rw [(hempty u hu).1, (hempty u hu).2]
    exact ⟨List.nodup_nil, List.nodup_nil⟩
  · intro u hu
    rw [(hempty u hu).1, (hempty u hu).2]
    simp
  · intro u hu v hv
    rw [(hempty v hv).1, (hempty u hu).2]
    simp

/-- Under the invariant, a user's stored follower count equals the number
of users whose `following` list contains that user. -/
theorem followers_count (users : List User) (hinv : FollowInv users)
    (u : User) (hu : u ∈ users) :
    u.followers.length = users.countP (fun w => decide (u.id ∈ w.following)) := by
  rcases hinv with ⟨hnd, hnodup, hclosed, hsym⟩
  have hperm : ((users.filter (fun w => decide (u.id ∈ w.following))).map User.id).Perm
      u.followers := by
    rw [List.perm_ext_iff_of_nodup]
    · intro x
      constructor
      · intro hx
        rcases List.mem_map.mp hx with ⟨w, hwmem, hwid⟩
        rcases List.mem_filter.mp hwmem with ⟨hw, hP⟩
        have hPw : u.id ∈ w.following := of_decide_eq_true hP
        have := (hsym w hw u hu).mpr hPw
        exact hwid ▸ this
      · intro hx
        rcases (hclosed u hu).1 x hx with ⟨w, hw, hwid⟩
        have hPw : u.id ∈ w.following := (hsym w hw u hu).mp (hwid ▸ hx)
        refine List.mem_map.mpr ⟨w, List.mem_filter.mpr ⟨hw, decide_eq_true hPw⟩, hwid⟩
    · exact ((List.filter_sublist users).map User.id).nodup hnd
    · exact (hnodup u hu).1
  have hlen := hperm.length_eq
  rw [List.length_map] at hlen
  rw [← hlen, List.countP_eq_length_filter]

/-- C2: in every store reachable by follow/unfollow requests from a store
with unique ids and no follow edges, the relation is stored symmetrically —
`A` sits in `B`'s followers iff `B` sits in `A`'s following — and every
user's follower count equals the number of users whose `following` list
contains that user. -/
theorem toggleFollow_reachable_symm_count (users0 : List User)
    (ops : List (Nat × Nat))
    (hnd : (users0.map User.id).Nodup)
    (hempty : ∀ u ∈ users0, u.followers = [] ∧ u.following = []) :
    (∀ u ∈ applyFollowOps users0 ops, ∀ v ∈ applyFollowOps users0 ops,
        (u.id ∈ v.followers ↔ v.id ∈ u.following)) ∧
    (∀ u ∈ applyFollowOps users0 ops,
        u.followers.length =
          (applyFollowOps users0 ops).countP (fun w => decide (u.id ∈ w.following))) := by
  have hinv := applyFollowOps_inv ops users0 (followInv_init users0 hnd hempty)
  exact ⟨fun u hu v hv => hinv.2.2.2 u hu v hv,
    fun u hu => followers_count _ hinv u hu⟩

/-- Two fresh accounts for the C2 witness. -/
def c2u0 : User :=
  { id := 0, username := "a".toList, email := "a@x.com".toList,
    passwordHash := bcryptHash "pw".toList, displayName := none,
    followers := [], following := [] }

def c2u1 : User := { c2u0 with id := 1, username := "b".toList }

def c2Ops : List (Nat × Nat) := [(0, 1), (1, 0), (0, 1)]

/-- Witness for `toggleFollow_reachable_symm_count`: after user 0 follows
user 1, user 1 follows back, and user 0 unfollows, the stored relation is
still symmetric and count-consistent for the surviving edge. -/
theorem toggleFollow_reachable_symm_count_witness :
    (({ c2u0 with followers := [1] } : User).id ∈
        ({ c2u1 with following := [0] } : User).followers ↔
      ({ c2u1 with following := [0] } : User).id ∈
        ({ c2u0 with followers := [1] } : User).following) ∧
    ({ c2u0 with followers := [1] } : User).followers.length =
      (applyFollowOps [c2u0, c2u1] c2Ops).countP
        (fun w => decide (({ c2u0 with followers := [1] } : User).id ∈ w.following)) := by
  have h := toggleFollow_reachable_symm_count [c2u0, c2u1] c2Ops (by decide) (by decide)
  exact ⟨h.1 _ (by decide) _ (by decide), h.2 _ (by decide)⟩

/-- A user who never appears in their own edge lists stays absent from them
under any follow/unfollow call between two distinct users. -/
theorem toggleFollow_preserves_selfFree (users : List User) (s t : Nat)
    (hst : s ≠ t)
    (hsf : ∀ u ∈ users, u.id ∉ u.followers ∧ u.id ∉ u.following) :
    ∀ u ∈ (toggleFollow users s t).1, u.id ∉ u.followers ∧ u.id ∉ u.following := by
  rcases hft : findUser users t with _ | target
  · have h : (toggleFollow users s t).1 = users := by
      unfold toggleFollow
      rw [hft]
    rw [h]
    exact hsf
  rcases hfs : findUser users s with _ | me
  · have h : (toggleFollow users s t).1 = users := by
      unfold toggleFollow
      rw [hft, hfs]
    rw [h]
    exact hsf
  have htgmem := findUser_some hft
  have hmemem := findUser_some hfs
  have hmain : (toggleFollow users s t).1 = users.map (fun u =>
      { u with following := (if u.id == s then
            (if me.following.contains t then me.following.filter (fun x => !(x == t))
             else me.following ++ [t]) else u.following),
               followers := (if u.id == t then
            (if me.following.contains t then target.followers.filter (fun x => !(x == s))
             else target.followers ++ [s]) else u.followers) }) := by
    rw [toggleFollow_found users s t target me hft hfs]
    dsimp only
    rw [updateUser_updateUser_map]
  rw [hmain]
  intro u' hu'
  rcases List.mem_map.mp hu' with ⟨u, hu, rfl⟩
  dsimp only
  constructor
  · by_cases hut : u.id = t
    · rw [if_pos (by simp [hut])]
      intro h
      by_cases hal : me.following.contains t = true
      · rw [if_pos hal] at h
        exact (hsf target htgmem.1).1
          ((htgmem.2.trans hut.symm) ▸ (List.mem_filter.mp h).1)
      · rw [if_neg hal] at h
        rcases List.mem_append.mp h with h2 | h2
        · exact (hsf target htgmem.1).1 ((htgmem.2.trans hut.symm) ▸ h2)
        · rw [List.mem_singleton] at h2
          exact hst (h2 ▸ hut)
    · rw [if_neg (by simp [hut])]
      exact (hsf u hu).1
  · by_cases hus : u.id = s
    · rw [if_pos (by simp [hus])]
      intro h
      by_cases hal : me.following.contains t = true
      · rw [if_pos hal] at h
        exact (hsf me hmemem.1).2
          ((hmemem.2.trans hus.symm) ▸ (List.mem_filter.mp h).1)
      · rw [if_neg hal] at h
        rcases List.mem_append.mp h with h2 | h2
        · exact (hsf me hmemem.1).2 ((hmemem.2.trans hus.symm) ▸ h2)
        · rw [List.mem_singleton] at h2
          exact hst (hus ▸ h2 ▸ rfl)
    · rw [if_neg (by simp [hus])]
      exact (hsf u hu).2

/-- C3 (amended): along any sequence of follow/unfollow requests in which
no call targets its own caller, a user absent from their own edge lists
stays absent from them. -/
theorem toggleFollow_no_self_of_distinct (users0 : List User)
    (ops : List (Nat × Nat))
    (hsf0 : ∀ u ∈ users0, u.id ∉ u.followers ∧ u.id ∉ u.following)
    (hops : ∀ op ∈ ops, op.1 ≠ op.2) :
    ∀ u ∈ applyFollowOps users0 ops, u.id ∉ u.followers ∧ u.id ∉ u.following := by
  induction ops generalizing users0 with
  | nil => exact hsf0
  | cons op rest ih =>
    exact ih _
      (toggleFollow_preserves_selfFree users0 op.1 op.2 (hops op (by simp)) hsf0)
      (fun o ho => hops o (List.mem_cons_of_mem _ ho))

/-- A lone account for the self-follow counterexample. -/
def c3User : User :=
  { id := 0, username := "c".toList, email := "c@x.com".toList,
    passwordHash := bcryptHash "pw".toList, displayName := none,
    followers := [], following := [] }

/-- C3 counterexample: the route has no self-follow guard, so the single
call `toggleFollow(0, 0)` from the empty-edge store leaves user 0 inside
both of their own edge lists. -/
theorem selfFollow_counterexample :
    (findUser (applyFollowOps [c3User] [(0, 0)]) 0).map
        (fun u => (u.following.contains u.id, u.followers.contains u.id)) =
      some (true, true) := by
  decide

/-- Accounts for the C3 witness. -/
def c3a : User := { c3User with id := 0 }

def c3b : User := { c3User with id := 1, username := "d".toList }

/-- Witness for `toggleFollow_no_self_of_distinct`. -/
theorem toggleFollow_no_self_of_distinct_witness :
    ({ c3a with following := [1] } : User).id ∉
        ({ c3a with following := [1] } : User).followers ∧
    ({ c3a with following := [1] } : User).id ∉
        ({ c3a with following := [1] } : User).following := by
  have h := toggleFollow_no_self_of_distinct [c3a, c3b] [(0, 1)] (by decide) (by decide)
  exact h _ (by decide)
